import Mathlib

/-!
Verification of the communication-surveillance pipeline (`src/app.py`).

This file is a shallow embedding, in Lean 4, of the pure core of the
surveillance proof-of-concept: sentence segmentation (`split_sentences`),
prompt construction (`build_prompt`), the tolerant JSON-recovery pipeline
used in `analyze_email` and the main loop, the priority computation
(`calculate_priority` and the main-loop `priority` expression), the evidence
resolution (`evidence_texts`), and the report-table sort
(`result_df.sort_values("Priority Score", ascending=False)`).

Python library functions used by the source (`str.strip`, `re.split`,
`re.sub` for the two fixed patterns, `json.loads`, `dict.get`,
`pandas.sort_values`/`numpy.argsort`) are modelled explicitly; each model
carries a comment stating exactly which library behaviour it reproduces and
with what fidelity.
-/

namespace Surveillance

/-! ## Python character classes and `str.strip`

Python's `str.strip()` (no argument) removes leading and trailing whitespace,
and `\s` in a `re` pattern over `str` matches the same whitespace class.
We model the ASCII portion of that class (space, tab, newline, carriage
return, vertical tab, form feed); the additional Unicode whitespace
characters behave identically in every claim treated here and are omitted.
-/

def pyIsSpace (c : Char) : Bool :=
  c = ' ' || c = '\t' || c = '\n' || c = '\r' || c = '\x0b' || c = '\x0c'

/-- Model of `str.strip()` on a character list: drop the maximal whitespace prefix and
suffix. -/
def pyStripChars (l : List Char) : List Char :=
  ((l.dropWhile pyIsSpace).reverse.dropWhile pyIsSpace).reverse

/-- Model of `str.strip()` on a `String`. -/
def pyStrip (s : String) : String :=
  ⟨pyStripChars s.data⟩

/-! ## Sentence segmentation (`split_sentences`, `src/app.py:40-43`)

```python
def split_sentences(text: str):
    sentences = re.split(r'(?<=[.!?])\s+', text or "")
    return [{"line_id": i + 1, "text": s} for i, s in enumerate(sentences) if s.strip()]
```

`re.split` with the pattern `(?<=[.!?])\s+` cuts the text at every maximal
whitespace run that immediately follows one of `.`, `!`, `?`; the whitespace
run is consumed as the separator. `splitGo` scans the characters left to
right: `acc` is the current piece accumulated in reverse, and `skip = true`
while the scanner is consuming a separator whitespace run.
-/

def isSentencePunct (c : Char) : Bool :=
  c = '.' || c = '!' || c = '?'

def headIsSpace : List Char → Bool
  | [] => false
  | c :: _ => pyIsSpace c

def splitGo (skip : Bool) (acc : List Char) : List Char → List (List Char)
  | [] => [acc.reverse]
  | c :: rest =>
    if skip && pyIsSpace c then
      splitGo true acc rest
    else if isSentencePunct c && headIsSpace rest then
      (acc.reverse ++ [c]) :: splitGo true [] rest
    else
      splitGo false (c :: acc) rest

/-- The pieces produced by `re.split(r'(?<=[.!?])\s+', text)`. -/
def reSplitSentences (text : String) : List (List Char) :=
  splitGo false [] text.data

structure Sentence where
  line_id : Nat
  text : String
deriving DecidableEq, Repr

/-- The function `split_sentences` from `src/app.py:40-43`: split, then keep the pieces
whose `strip()` is non-empty (Python truthiness of `s.strip()`), numbering
each surviving piece with `line_id = i + 1` where `i` is its index in the
full `enumerate(sentences)` (before the filter). The piece itself is stored
unmodified as `text`. -/
def split_sentences (text : String) : List Sentence :=
  ((reSplitSentences text).enum.filter
      (fun p => !(pyStripChars p.2).isEmpty)).map
    (fun p => { line_id := p.1 + 1, text := ⟨p.2⟩ })

example : split_sentences "Hello world." = [⟨1, "Hello world."⟩] := by decide
example : split_sentences "Hi. Bye!" = [⟨1, "Hi."⟩, ⟨2, "Bye!"⟩] := by decide
example : split_sentences "" = [] := by decide
example : split_sentences "Hi.  " = [⟨1, "Hi."⟩] := by decide
example : split_sentences " Hi" = [⟨1, " Hi"⟩] := by decide

/-! ### Structural lemmas about the segmentation

The key structural fact is that every piece except possibly the *last* one
contains a sentence-ending punctuation character, hence survives the
`if s.strip()` filter; only the final piece can be empty (it is empty exactly
when the input ends in punctuation followed by trailing whitespace).
Consequently the surviving pieces occupy a *prefix* of the `enumerate`
indices and the assigned `line_id`s are `1, 2, …, k` with no gaps.
-/

theorem splitGo_ne_nil (l : List Char) : ∀ skip acc, splitGo skip acc l ≠ [] := by
  induction l with
  | nil => intro skip acc; simp [splitGo]
  | cons c rest ih =>
    intro skip acc
    simp only [splitGo]
    split
    · exact ih true acc
    · split
      · simp
      · exact ih false (c :: acc)

theorem isSentencePunct_not_space {c : Char} (h : isSentencePunct c = true) :
    pyIsSpace c = false := by
  simp only [isSentencePunct, Bool.or_eq_true, decide_eq_true_eq] at h
  rcases h with (h | h) | h <;> subst h <;> decide

theorem splitGo_dropLast_has_nonspace (l : List Char) :
    ∀ skip acc p, p ∈ (splitGo skip acc l).dropLast →
      ∃ c ∈ p, pyIsSpace c = false := by
  induction l with
  | nil => intro skip acc p hp; simp [splitGo] at hp
  | cons c rest ih =>
    intro skip acc p hp
    simp only [splitGo] at hp
    split at hp
    · exact ih true acc p hp
    · split at hp
      · rename_i hpunct
        rw [List.dropLast_cons_of_ne_nil (splitGo_ne_nil rest true [])] at hp
        rcases List.mem_cons.1 hp with h | h
        · subst h
          refine ⟨c, ?_, ?_⟩
          · simp
          · exact isSentencePunct_not_space (by
              simpa using (Bool.and_elim_left (by simpa using hpunct)))
        · exact ih true [] p h
      · exact ih false (c :: acc) p hp

theorem pyStripChars_ne_nil {l : List Char} (h : ∃ c ∈ l, pyIsSpace c = false) :
    pyStripChars l ≠ [] := by
  intro hnil
  rcases h with ⟨c, hc, hcs⟩
  have h1 : (l.dropWhile pyIsSpace).reverse.dropWhile pyIsSpace = [] := by
    have := congrArg List.reverse hnil
    simpa [pyStripChars] using this
  have hall : ∀ x ∈ (l.dropWhile pyIsSpace).reverse, pyIsSpace x = true := by
    intro x hx
    exact List.dropWhile_eq_nil_iff.1 h1 x hx
  have hall2 : ∀ x ∈ l.dropWhile pyIsSpace, pyIsSpace x = true := by
    intro x hx; exact hall x (List.mem_reverse.2 hx)
  have hall3 : ∀ x ∈ l, pyIsSpace x = true := by
    intro x hx
    rw [← List.takeWhile_append_dropWhile (p := pyIsSpace) (l := l)] at hx
    rcases List.mem_append.1 hx with h | h
    · exact List.mem_takeWhile_imp h
    · exact hall2 x h
  rw [hall3 c hc] at hcs
  exact Bool.noConfusion hcs

theorem pyStripChars_all_space {l : List Char} (h : ∀ c ∈ l, pyIsSpace c = true) :
    pyStripChars l = [] := by
  have h1 : l.dropWhile pyIsSpace = [] := List.dropWhile_eq_nil_iff.2 h
  simp [pyStripChars, h1]

/-- Filtering an enumeration in which all of `l₁` passes and all of `l₂`
fails keeps exactly the enumeration of `l₁`. -/
theorem enumFrom_filter_front {α : Type} (P : α → Bool) :
    ∀ (l₁ l₂ : List α) (k : Nat), (∀ x ∈ l₁, P x = true) → (∀ x ∈ l₂, P x = false) →
      ((l₁ ++ l₂).enumFrom k).filter (fun p => P p.2) = l₁.enumFrom k := by
  intro l₁
  induction l₁ with
  | nil =>
    intro l₂ k _ hbad
    induction l₂ generalizing k with
    | nil => simp
    | cons y ys ihy =>
      simp only [List.nil_append, List.enumFrom_cons, List.filter_cons]
      rw [hbad y (by simp)]
      simpa using ihy (k + 1) (fun x hx => hbad x (List.mem_cons_of_mem y hx))
  | cons x xs ih =>
    intro l₂ k hgood hbad
    simp only [List.cons_append, List.enumFrom_cons, List.filter_cons]
    rw [hgood x (by simp)]
    simp only [List.enumFrom_cons]
    rw [ih l₂ (k + 1) (fun y hy => hgood y (by simp [hy])) hbad]
    simp

theorem enumFrom_map_fst_succ {α : Type} :
    ∀ (l : List α) (k : Nat), (l.enumFrom k).map (fun p => p.1 + 1) =
      List.range' (k + 1) l.length := by
  intro l
  induction l with
  | nil => intro k; simp
  | cons x xs ih =>
    intro k
    simp only [List.enumFrom_cons, List.map_cons, List.length_cons, List.range'_succ]
    rw [ih (k + 1)]

/-- The surviving pieces of a split occupy a prefix of the enumeration:
the filtered enumeration is the enumeration of some prefix `l₁` of the
pieces.  `l₁` is the whole list when the final piece survives the filter
and the list without its final piece otherwise. -/
theorem filter_enum_reSplit (t : String) :
    ∃ l₁ : List (List Char),
      ((reSplitSentences t).enum.filter (fun p => !(pyStripChars p.2).isEmpty)) =
        l₁.enumFrom 0 := by
  set l := reSplitSentences t with hl
  have hne : l ≠ [] := splitGo_ne_nil _ _ _
  have hgood : ∀ p ∈ l.dropLast, (!(pyStripChars p).isEmpty) = true := by
    intro p hp
    have hx := splitGo_dropLast_has_nonspace _ _ _ _ hp
    have hnn := pyStripChars_ne_nil hx
    simpa [List.isEmpty_iff] using hnn
  have hdecomp : l.dropLast ++ [l.getLast hne] = l := List.dropLast_append_getLast hne
  by_cases hlast : (!(pyStripChars (l.getLast hne)).isEmpty) = true
  · refine ⟨l, ?_⟩
    have hgoodAll : ∀ p ∈ l, (!(pyStripChars p).isEmpty) = true := by
      intro p hp
      rw [← hdecomp] at hp
      rcases List.mem_append.1 hp with h | h
      · exact hgood p h
      · simp only [List.mem_singleton] at h; subst h; exact hlast
    have := enumFrom_filter_front (fun p => !(pyStripChars p).isEmpty) l [] 0
      hgoodAll (by simp)
    simpa [List.enum] using this
  · refine ⟨l.dropLast, ?_⟩
    have hbad : ∀ p ∈ [l.getLast hne], (!(pyStripChars p).isEmpty) = false := by
      intro p hp
      simp only [List.mem_singleton] at hp; subst hp
      simpa using hlast
    have := enumFrom_filter_front (fun p => !(pyStripChars p).isEmpty)
      l.dropLast [l.getLast hne] 0 hgood hbad
    rw [hdecomp] at this
    simpa [List.enum] using this

/-- The `line_id`s assigned by `split_sentences` are `1, 2, …, k`:
strictly increasing, contiguous and starting at 1. -/
theorem split_sentences_ids (t : String) :
    (split_sentences t).map (fun s => s.line_id) =
      List.range' 1 (split_sentences t).length := by
  obtain ⟨l₁, hfe⟩ := filter_enum_reSplit t
  unfold split_sentences
  rw [hfe, List.map_map, List.length_map]
  have hlen : (l₁.enumFrom 0).length = l₁.length := by simp
  rw [hlen]
  have hcomp : ((fun s : Sentence => s.line_id) ∘ fun p : Nat × List Char =>
      ({ line_id := p.1 + 1, text := ⟨p.2⟩ } : Sentence)) = fun p => p.1 + 1 := rfl
  rw [hcomp, enumFrom_map_fst_succ]

/-- Every sentence kept by `split_sentences` has a text whose `strip()` is
non-empty, i.e. the text contains at least one non-whitespace character. -/
theorem split_sentences_text_has_nonspace (t : String) (s : Sentence)
    (hs : s ∈ split_sentences t) : ∃ c ∈ s.text.data, pyIsSpace c = false := by
  unfold split_sentences at hs
  rcases List.mem_map.1 hs with ⟨p, hp, hmk⟩
  rcases List.mem_filter.1 hp with ⟨_, hkeep⟩
  subst hmk
  by_contra hnone
  push_neg at hnone
  have hall : ∀ c ∈ p.2, pyIsSpace c = true := by
    intro c hc
    cases h : pyIsSpace c
    · exact absurd h (hnone c hc)
    · rfl
  have := pyStripChars_all_space hall
  rw [this] at hkeep
  simp at hkeep

/-! ## Prompt construction (`build_prompt`, `src/app.py:45-81`)

The f-string template is transcribed verbatim (literal braces of the JSON
shape are written with `\x7b`/`\x7d` escapes); `{subject}`, `{body}` and
`{sentence_block}` become string concatenation, `"\n".join(...)` becomes
`String.intercalate "\n"`, the interpolation `f"{s['line_id']}. {s['text']}"`
renders the id in decimal, and the final `.strip()` is `pyStrip`. -/

def build_prompt (subject body : String) (sentences : List Sentence) : String :=
  let sentence_block :=
    String.intercalate "\n"
      (sentences.map (fun s => toString s.line_id ++ ". " ++ s.text))
  pyStrip
    ("\nYou are a compliance surveillance assistant for a bank.\n\nAnalyze the email below and return ONLY valid JSON.\n\nTasks:\n1. Decide if the email is non-compliant (true/false)\n2. Assign ONE category from:\n   - Secrecy\n   - Market Manipulation/Misconduct\n   - Market Bribery\n   - Change in Communication\n   - Complaints\n   - Employee Ethics\n3. Explain the reason\n4. Identify the sentence line_ids that caused concern\n\nEmail Subject:\n"
      ++ subject
      ++ "\n\nEmail Content:\n"
      ++ body
      ++ "\n\nSentences:\n"
      ++ sentence_block
      ++ "\n\nReturn JSON in this format:\n\x7b\n  \"is_non_compliant\": true/false,\n  \"category\": \"...\",\n  \"reason\": \"...\",\n  \"evidence_line_ids\": [1,2]\n\x7d\n")

/-! ## Code-fence stripping (`re.sub`, `src/app.py:93` and `src/app.py:171`)

```python
raw = re.sub(r"^```(?:json)?\s*|\s*```$", "", raw)
```

There is no `re.IGNORECASE` flag, so `(?:json)?` matches only the lowercase
`json`.  The substitution removes (a) at the very start: three backticks,
optionally followed by the literal `json`, plus the following whitespace run,
and (b) at the very end: a whitespace run followed by three backticks, where
`$` also matches just before a single final newline (Python `$` semantics
without `re.MULTILINE`).  Fences anywhere else never match, because the
pattern is anchored with `^` and `$`. -/

/-- The backtick character. -/
def btick : Char := Char.ofNat 96

def fence3 : List Char := [btick, btick, btick]

def dropLeadingFence (l : List Char) : List Char :=
  if l.take 3 = fence3 then
    let rest := l.drop 3
    let rest2 := if rest.take 4 = ['j', 's', 'o', 'n'] then rest.drop 4 else rest
    rest2.dropWhile pyIsSpace
  else l

def dropTrailingFence (l : List Char) : List Char :=
  let r := l.reverse
  if r.take 3 = fence3 then
    ((r.drop 3).dropWhile pyIsSpace).reverse
  else if r.take 4 = '\n' :: fence3 then
    (((r.drop 4).dropWhile pyIsSpace).reverse) ++ ['\n']
  else l

/-- The whole `re.sub`: the leading alternative is consumed first (it matches
at position 0), the trailing alternative is then searched in the remainder. -/
def stripFences (l : List Char) : List Char :=
  dropTrailingFence (dropLeadingFence l)

/-- Formalization of claim C4's reading of the fence-stripping step, in which
the `json` tag of the leading marker is matched *case-insensitively*.  It
differs from `stripFences` (the code) only in that one comparison. -/
def stripFencesClaimCI (l : List Char) : List Char :=
  let afterLead :=
    if l.take 3 = fence3 then
      let rest := l.drop 3
      let rest2 :=
        if (rest.take 4).map Char.toLower = ['j', 's', 'o', 'n'] then rest.drop 4
        else rest
      rest2.dropWhile pyIsSpace
    else l
  dropTrailingFence afterLead

example : stripFences "```json\nhi```".data = "hi".data := by decide
example : stripFences "```JSON".data = "JSON".data := by decide
example : stripFences "a ``` b".data = "a ``` b".data := by decide
example : stripFences "x```\n".data = "x\n".data := by decide

/-! ## Risk weights and priority (`src/app.py:28-35`, `110-111`, `198-202`) -/

def RISK_WEIGHTS : List (String × Nat) :=
  [("Secrecy", 4),
   ("Market Manipulation/Misconduct", 5),
   ("Market Bribery", 5),
   ("Change in Communication", 3),
   ("Complaints", 2),
   ("Employee Ethics", 3)]

/-- Python JSON values as produced by `json.loads`.  Numbers are decimal
pairs `sig * 10 ^ exp10` (integer literals have `exp10 = 0` and no fraction
or exponent part); `nan`/`inf` model the `NaN`/`Infinity`/`-Infinity`
constants Python's decoder accepts.  This representation is exact for every
number appearing in the claims below; IEEE rounding of extreme float
literals is not modelled. -/
inductive Json where
  | null
  | bool (b : Bool)
  | num (sig : Int) (exp10 : Int)
  | nan
  | inf (neg : Bool)
  | str (s : String)
  | arr (elems : List Json)
  | obj (fields : List (String × Json))

/-- Is the value a JSON object (a Python `dict` after decoding)? -/
def Json.isObj : Json → Bool
  | .obj _ => true
  | _ => false

/-- Python truthiness of a JSON-decoded value (`bool(x)`): `None`, `False`,
zero, empty string/list/dict are falsy, everything else truthy. -/
def pyTruthy : Json → Bool
  | .null => false
  | .bool b => b
  | .num sig _ => sig != 0
  | .nan => true
  | .inf _ => true
  | .str s => !s.isEmpty
  | .arr l => !l.isEmpty
  | .obj f => !f.isEmpty

/-- Model of `dict.get(k, dflt)` on a dict built from an association list with
later duplicate keys overwriting earlier ones (Python dict semantics, as
produced by `json.loads`). -/
def pyDictGet (d : List (String × Json)) (k : String) (dflt : Json) : Json :=
  match d.reverse.find? (fun kv => kv.1 == k) with
  | some kv => kv.2
  | none => dflt

/-- The function `calculate_priority` (`src/app.py:110-111`):
`return RISK_WEIGHTS.get(category, 1)`.  `RISK_WEIGHTS` has `str` keys; a
non-string Python value never compares equal to a `str` key, so any
non-string category falls to the default 1. -/
def calculate_priority (category : Json) : Nat :=
  match category with
  | .str s =>
    match RISK_WEIGHTS.find? (fun kv => kv.1 == s) with
    | some kv => kv.2
    | none => 1
  | _ => 1

/-- The main-loop priority expression (`src/app.py:198-202`):
```python
priority = (calculate_priority(analysis.get("category", ""))
            if analysis.get("is_non_compliant") else 0)
```
`analysis.get("is_non_compliant")` defaults to `None` (falsy) and the guard
is Python truthiness, not a boolean-equality test. -/
def priority_of (analysis : List (String × Json)) : Nat :=
  if pyTruthy (pyDictGet analysis "is_non_compliant" Json.null) then
    calculate_priority (pyDictGet analysis "category" (Json.str ""))
  else 0

/-! ## Evidence resolution (`src/app.py:203-204`)

```python
evidence_ids = set(analysis.get("evidence_line_ids", []))
evidence_texts = [s["text"] for s in sentences if s["line_id"] in evidence_ids]
```

Membership in `set(L)` coincides with membership in the list `L`, so the
`set` conversion is modelled by list membership. -/

def evidence_texts (ids : List Int) (sentences : List Sentence) : List String :=
  (sentences.filter (fun s => ids.contains (s.line_id : Int))).map (fun s => s.text)

example :
    evidence_texts [2, 5] [⟨1, "A."⟩, ⟨2, "B."⟩, ⟨3, "C."⟩] = ["B."] := by decide

/-! ## `json.loads` (CPython's default C scanner, strict mode)

Recursive-descent parser over the character list, faithful to the grammar
accepted by `json.loads`: the six JSON value forms plus the `NaN`,
`Infinity` and `-Infinity` constants; strings reject raw control characters
below `0x20` and unknown escapes; `\uXXXX` escapes require exactly four hex
digits, with surrogate pairs combined and lone surrogates kept; numbers
follow `-?(0|[1-9]\d*)(\.\d+)?([eE][+-]?\d+)?`; objects keep duplicate keys
with the later value winning (modelled by `pyDictGet` reading the *last*
binding); after the top-level value only JSON whitespace (` \t\n\r`) may
remain, otherwise the parse fails ("Extra data").  All failure modes of the
Python decoder raise `json.JSONDecodeError`, which is exactly the exception
the source catches, so `Option.none` models every caught failure.

The recursion is fuelled; `2 * length + 8` units always suffice because
every recursive call beyond the two immediate dispatches first consumes at
least one input character. -/

def jsonIsWs (c : Char) : Bool :=
  c = ' ' || c = '\t' || c = '\n' || c = '\r'

def skipJsonWs (l : List Char) : List Char := l.dropWhile jsonIsWs

def hexVal (c : Char) : Option Nat :=
  if '0' ≤ c ∧ c ≤ '9' then some (c.toNat - 48)
  else if 'a' ≤ c ∧ c ≤ 'f' then some (c.toNat - 87)
  else if 'A' ≤ c ∧ c ≤ 'F' then some (c.toNat - 55)
  else none

def hex4 : List Char → Option (Nat × List Char)
  | a :: b :: c :: d :: r =>
    match hexVal a, hexVal b, hexVal c, hexVal d with
    | some va, some vb, some vc, some vd =>
      some (va * 4096 + vb * 256 + vc * 16 + vd, r)
    | _, _, _, _ => none
  | _ => none

/-- Model of `chr(n)`.  A lone surrogate code point is not a Unicode scalar value and
cannot inhabit Lean's `Char`; it is mapped to `NUL`.  (No claim below
involves lone surrogates.) -/
def codeChar (n : Nat) : Char := Char.ofNat n

def escChar (c : Char) : Option Char :=
  if c = '"' then some '"'
  else if c = '\\' then some '\\'
  else if c = '/' then some '/'
  else if c = 'b' then some '\x08'
  else if c = 'f' then some '\x0c'
  else if c = 'n' then some '\n'
  else if c = 'r' then some '\r'
  else if c = 't' then some '\t'
  else none

/-- String body parser (after the opening quote): returns the decoded
characters and the input following the closing quote. -/
def parseJString : Nat → List Char → Option (List Char × List Char)
  | 0, _ => none
  | fuel + 1, l =>
    match l with
    | [] => none
    | '"' :: rest => some ([], rest)
    | '\\' :: esc =>
      match esc with
      | [] => none
      | 'u' :: h =>
        match hex4 h with
        | none => none
        | some (v, r) =>
          if 0xd800 ≤ v ∧ v ≤ 0xdbff then
            match r with
            | '\\' :: 'u' :: h2 =>
              match hex4 h2 with
              | none => none
              | some (w, r2) =>
                if 0xdc00 ≤ w ∧ w ≤ 0xdfff then
                  (parseJString fuel r2).map
                    (fun p =>
                      (codeChar (0x10000 + (v - 0xd800) * 0x400 + (w - 0xdc00)) :: p.1,
                        p.2))
                else
                  (parseJString fuel r).map (fun p => (codeChar v :: p.1, p.2))
            | _ => (parseJString fuel r).map (fun p => (codeChar v :: p.1, p.2))
          else
            (parseJString fuel r).map (fun p => (codeChar v :: p.1, p.2))
      | c :: r =>
        match escChar c with
        | some c2 => (parseJString fuel r).map (fun p => (c2 :: p.1, p.2))
        | none => none
    | c :: rest =>
      if c.toNat < 0x20 then none
      else (parseJString fuel rest).map (fun p => (c :: p.1, p.2))

def isDigit (c : Char) : Bool := '0' ≤ c && c ≤ '9'

def digitsToNat (l : List Char) : Nat :=
  l.foldl (fun a c => a * 10 + (c.toNat - 48)) 0

/-- Number literal per `NUMBER_RE = -?(0|[1-9]\d*)(\.\d+)?([eE][-+]?\d+)?`,
returned as a decimal significand/exponent pair. -/
def parseNumber (l : List Char) : Option (Json × List Char) :=
  let (neg, l1) := match l with
                   | '-' :: r => (true, r)
                   | _ => (false, l)
  match l1 with
  | [] => none
  | c :: _ =>
    if ¬ (isDigit c = true) then none
    else
      let (ipart, l2) :=
        if c = '0' then ([c], l1.tail)
        else (l1.takeWhile isDigit, l1.dropWhile isDigit)
      let (fpart, l3) :=
        match l2 with
        | '.' :: r =>
          let ds := r.takeWhile isDigit
          if ds.isEmpty then ([], l2) else (ds, r.dropWhile isDigit)
        | _ => ([], l2)
      let (epart, l4) :=
        match l3 with
        | e :: r =>
          if e = 'e' ∨ e = 'E' then
            let (eneg, r1) := match r with
                              | '+' :: rr => (false, rr)
                              | '-' :: rr => (true, rr)
                              | _ => (false, r)
            let ds := r1.takeWhile isDigit
            if ds.isEmpty then (none, l3)
            else (some (eneg, ds), r1.dropWhile isDigit)
          else (none, l3)
        | [] => (none, l3)
      let mag : Nat := digitsToNat (ipart ++ fpart)
      let sig : Int := if neg then -(mag : Int) else (mag : Int)
      let expv : Int :=
        (match epart with
         | some (eneg, ds) =>
           if eneg then -((digitsToNat ds : Int)) else (digitsToNat ds : Int)
         | none => 0)
        - (fpart.length : Int)
      some (Json.num sig expv, l4)

mutual

def parseJson : Nat → List Char → Option (Json × List Char)
  | 0, _ => none
  | fuel + 1, l =>
    match l with
    | [] => none
    | '"' :: rest =>
      (parseJString (rest.length + 1) rest).map (fun p => (Json.str ⟨p.1⟩, p.2))
    | '\x7b' :: rest =>
      (match skipJsonWs rest with
       | '\x7d' :: r => some (Json.obj [], r)
       | l2 => parseObjMembers fuel [] l2)
    | '[' :: rest =>
      (match skipJsonWs rest with
       | ']' :: r => some (Json.arr [], r)
       | l2 => parseArrMembers fuel [] l2)
    | 't' :: rest =>
      if rest.take 3 = ['r', 'u', 'e'] then some (Json.bool true, rest.drop 3) else none
    | 'f' :: rest =>
      if rest.take 4 = ['a', 'l', 's', 'e'] then some (Json.bool false, rest.drop 4)
      else none
    | 'n' :: rest =>
      if rest.take 3 = ['u', 'l', 'l'] then some (Json.null, rest.drop 3) else none
    | 'N' :: rest =>
      if rest.take 2 = ['a', 'N'] then some (Json.nan, rest.drop 2) else none
    | 'I' :: rest =>
      if rest.take 7 = ['n', 'f', 'i', 'n', 'i', 't', 'y'] then
        some (Json.inf false, rest.drop 7)
      else none
    | _ =>
      match parseNumber l with
      | some p => some p
      | none =>
        match l with
        | '-' :: rest =>
          if rest.take 8 = ['I', 'n', 'f', 'i', 'n', 'i', 't', 'y'] then
            some (Json.inf true, rest.drop 8)
          else none
        | _ => none

/-- Object members, positioned at the `"` of the next key. -/
def parseObjMembers : Nat → List (String × Json) → List Char →
    Option (Json × List Char)
  | 0, _, _ => none
  | fuel + 1, acc, l =>
    match l with
    | '"' :: rest =>
      (match parseJString (rest.length + 1) rest with
       | none => none
       | some (key, r1) =>
         match skipJsonWs r1 with
         | ':' :: r3 =>
           (match parseJson fuel (skipJsonWs r3) with
            | none => none
            | some (v, r4) =>
              let acc2 := acc ++ [(⟨key⟩, v)]
              match skipJsonWs r4 with
              | ',' :: r6 => parseObjMembers fuel acc2 (skipJsonWs r6)
              | '\x7d' :: r6 => some (Json.obj acc2, r6)
              | _ => none)
         | _ => none)
    | _ => none

/-- Array members, positioned at the start of the next value. -/
def parseArrMembers : Nat → List Json → List Char → Option (Json × List Char)
  | 0, _, _ => none
  | fuel + 1, acc, l =>
    match parseJson fuel l with
    | none => none
    | some (v, r1) =>
      match skipJsonWs r1 with
      | ',' :: r3 => parseArrMembers fuel (acc ++ [v]) (skipJsonWs r3)
      | ']' :: r3 => some (Json.arr (acc ++ [v]), r3)
      | _ => none

end

/-- Model of `json.loads`: skip leading JSON whitespace, parse one value, require
only JSON whitespace after it; any failure raises `JSONDecodeError`
(modelled by `none`). -/
def json_loads (s : String) : Option Json :=
  let l := skipJsonWs s.data
  match parseJson (2 * l.length + 8) l with
  | some (v, rest) => if (skipJsonWs rest).isEmpty then some v else none
  | none => none

example : json_loads "true" = some (Json.bool true) := by rfl
example : json_loads "[1, 2]" = some (Json.arr [Json.num 1 0, Json.num 2 0]) := by rfl
example : json_loads "not json at all" = none := by rfl
example :
    json_loads "\x7b\"a\": 1, \"a\": 2\x7d" =
      some (Json.obj [("a", Json.num 1 0), ("a", Json.num 2 0)]) := by rfl
example : json_loads " \"hi\\n\" " = some (Json.str "hi\n") := by rfl
example : json_loads "1.5e-2" = some (Json.num 15 (-3)) := by rfl
example : json_loads "\x7b\"a\": 1\x7d garbage" = none := by rfl
example : json_loads "-Infinity" = some (Json.inf true) := by rfl
example : json_loads "01" = none := by rfl
example : json_loads "[1,]" = none := by rfl

/-! ## Response normalization (`src/app.py:90-108` and `170-195`)

```python
raw = response.content.strip()
raw = re.sub(r"^```(?:json)?\s*|\s*```$", "", raw)
raw = raw.strip()
json_start = raw.find("\x7b")
if json_start > 0:
    raw = raw[json_start:]
try:
    result = json.loads(raw)
except json.JSONDecodeError:
    result = {"is_non_compliant": False, "category": "Unknown",
              "reason": "Model response could not be parsed",
              "evidence_line_ids": []}
```

Both copies of this block (in `analyze_email` and in the main loop) are the
same computation; `normalize` models it as a function of the raw model
response text. -/

/-- Model of `raw.find("\x7b")` followed by `if json_start > 0: raw = raw[json_start:]`. -/
def dropBeforeBrace (l : List Char) : List Char :=
  match l.findIdx? (fun c => c = '\x7b') with
  | some i => if 0 < i then l.drop i else l
  | none => l

/-- The preprocessed text actually handed to `json.loads`. -/
def recoveredText (raw : String) : List Char :=
  dropBeforeBrace (pyStripChars (stripFences (pyStripChars raw.data)))

/-- The fixed fallback analysis dict built on `json.JSONDecodeError`. -/
def parseFallback : Json :=
  Json.obj
    [("is_non_compliant", Json.bool false),
     ("category", Json.str "Unknown"),
     ("reason", Json.str "Model response could not be parsed"),
     ("evidence_line_ids", Json.arr [])]

/-- The response-normalization pipeline: preprocess, parse, and on parse
failure substitute the fixed fallback dict. -/
def normalize (raw : String) : Json :=
  match json_loads ⟨recoveredText raw⟩ with
  | some v => v
  | none => parseFallback

example :
    normalize "```json\n\x7b\"is_non_compliant\": true, \"category\": \"Secrecy\", \"reason\": \"x\", \"evidence_line_ids\": [1]\x7d\n```" =
      Json.obj
        [("is_non_compliant", Json.bool true),
         ("category", Json.str "Secrecy"),
         ("reason", Json.str "x"),
         ("evidence_line_ids", Json.arr [Json.num 1 0])] := by rfl
example : normalize "not json at all" = parseFallback := by rfl
example :
    normalize "prefix noise \x7b\"is_non_compliant\": false\x7d" =
      Json.obj [("is_non_compliant", Json.bool false)] := by rfl
example : normalize "[1, 2]" = Json.arr [Json.num 1 0, Json.num 2 0] := by rfl

/-! ## The report sort (`src/app.py:293`)

```python
sorted_df = result_df.sort_values("Priority Score", ascending=False)
```

pandas (`pandas.core.sorting.nargsort`, single integer key column, no NaNs,
default `kind="quicksort"`) computes the row indexer as

```python
non_nans = items[::-1]; non_nan_idx = idx[::-1]     # because ascending=False
indexer = non_nan_idx[non_nans.argsort(kind="quicksort")]
indexer = indexer[::-1]                             # because ascending=False
```

and `numpy`'s `argsort(kind="quicksort")` is an introsort
(`npysort/quicksort.c.src`, `aquicksort_`): median-of-3 quicksort
partitioning on segments longer than `SMALL_QUICKSORT = 15` elements
(i.e. length ≥ 17), a stable insertion sort on smaller segments, and a
heapsort fallback when the partition-depth budget `2 * msb(n)` is
exhausted.  The models below reproduce that algorithm on index lists:
`ainsertArg` is the stable insertion argsort (numpy's insertion sort moves
an element left only while it is strictly smaller, so equal keys keep their
order; folding a stable ordered insert gives the identical output), and
`aqsGo` performs the explicit partition/swap sequence of `aquicksort_`,
processing the smaller partition first exactly as the C code's explicit
stack does. -/

/-- Stable ordered insert of index `i` into an index list sorted by key:
`i` is placed before the first index whose key is strictly greater, i.e.
after all equal keys. -/
def argInsert (v : List Int) (i : Nat) : List Nat → List Nat
  | [] => [i]
  | j :: rest =>
    if v.getD i 0 < v.getD j 0 then i :: j :: rest else j :: argInsert v i rest

/-- Stable insertion argsort of an index list (numpy's insertion sort). -/
def ainsertArg (v : List Int) (l : List Nat) : List Nat :=
  l.foldl (fun acc i => argInsert v i acc) []

/-- Key of the index stored at position `k` of the indexer. -/
def keyAt (v : List Int) (t : List Nat) (k : Nat) : Int := v.getD (t.getD k 0) 0

/-- Model of `INTP_SWAP(*a, *b)` on the indexer. -/
def lswap (t : List Nat) (a b : Nat) : List Nat :=
  (t.set a (t.getD b 0)).set b (t.getD a 0)

/-- Model of `do ++pi; while (LT(v[*pi], vp))` starting from `k`. -/
def findUp (v : List Int) (t : List Nat) (vp : Int) : Nat → Nat → Nat
  | 0, k => k
  | fuel + 1, k => if keyAt v t k < vp then findUp v t vp fuel (k + 1) else k

/-- Model of `do --pj; while (LT(vp, v[*pj]))` starting from `k`. -/
def findDown (v : List Int) (t : List Nat) (vp : Int) : Nat → Nat → Nat
  | 0, k => k
  | fuel + 1, k => if vp < keyAt v t k then findDown v t vp fuel (k - 1) else k

/-- The inner partition exchange loop of `aquicksort_`. -/
def partLoop (v : List Int) (vp : Int) : Nat → List Nat → Nat → Nat →
    (List Nat × Nat)
  | 0, t, pi, _ => (t, pi)
  | fuel + 1, t, pi, pj =>
    let pi2 := findUp v t vp (t.length + 2) (pi + 1)
    let pj2 := findDown v t vp (t.length + 2) (pj - 1)
    if pj2 ≤ pi2 then (t, pi2)
    else partLoop v vp fuel (lswap t pi2 pj2) pi2 pj2

/-- One median-of-3 partition of the segment `[pl, pr]`, returning the new
indexer and the final pivot position. -/
def doPartition (v : List Int) (t : List Nat) (pl pr : Nat) : List Nat × Nat :=
  let pm := pl + (pr - pl) / 2
  let t1 := if keyAt v t pm < keyAt v t pl then lswap t pm pl else t
  let t2 := if keyAt v t1 pr < keyAt v t1 pm then lswap t1 pr pm else t1
  let t3 := if keyAt v t2 pm < keyAt v t2 pl then lswap t2 pm pl else t2
  let vp := keyAt v t3 pm
  let t4 := lswap t3 pm (pr - 1)
  let pp := partLoop v vp (pr - pl + 2) t4 pl (pr - 1)
  (lswap pp.1 pp.2 (pr - 1), pp.2)

/-- A 1-based read within the heapsort segment starting at `base`. -/
def aGet (t : List Nat) (base idx : Nat) : Nat := t.getD (base + idx - 1) 0

/-- A 1-based write within the heapsort segment starting at `base`. -/
def aSet (t : List Nat) (base idx val : Nat) : List Nat := t.set (base + idx - 1) val

def keyIdx (v : List Int) (t : List Nat) (base j : Nat) : Int :=
  v.getD (aGet t base j) 0

/-- The sift-down loop shared by both phases of numpy's `aheapsort_`. -/
def siftLoop (v : List Int) (base tmpv n : Nat) : Nat → List Nat → Nat → Nat →
    (List Nat × Nat)
  | 0, t, i, _ => (t, i)
  | fuel + 1, t, i, j =>
    if n < j then (t, i)
    else
      let j2 :=
        if j < n && decide (keyIdx v t base j < keyIdx v t base (j + 1)) then j + 1
        else j
      if v.getD tmpv 0 < keyIdx v t base j2 then
        siftLoop v base tmpv n fuel (aSet t base i (aGet t base j2)) j2 (j2 + j2)
      else (t, i)

def heapifyLoop (v : List Int) (base n : Nat) : Nat → List Nat → List Nat
  | 0, t => t
  | l + 1, t =>
    let tmpv := aGet t base (l + 1)
    let si := siftLoop v base tmpv n (n + 2) t (l + 1) (l + 1 + l + 1)
    heapifyLoop v base n l (aSet si.1 base si.2 tmpv)

def extractLoop (v : List Int) (base : Nat) : Nat → List Nat → List Nat
  | 0, t => t
  | 1, t => t
  | m + 2, t =>
    let tmpv := aGet t base (m + 2)
    let t1 := aSet t base (m + 2) (aGet t base 1)
    let si := siftLoop v base tmpv (m + 1) (m + 3) t1 1 2
    extractLoop v base (m + 1) (aSet si.1 base si.2 tmpv)

/-- numpy `aheapsort_` applied to the segment `[pl, pr]` (the introsort
depth-exhaustion fallback; unreachable for the input sizes used in the
theorems below, modelled for completeness). -/
def aheapsortSeg (v : List Int) (t : List Nat) (pl pr : Nat) : List Nat :=
  let n := pr + 1 - pl
  extractLoop v pl n (heapifyLoop v pl n (n / 2) t)

/-- The recursive core of `aquicksort_` on the segment `[pl, pr]`, threading
the shared partition-depth budget through the smaller-side-first traversal
order of the C code's explicit stack. -/
def aqsGo (v : List Int) : Nat → Nat → List Nat → Nat → Nat → (List Nat × Nat)
  | 0, d, t, _, _ => (t, d)
  | fuel + 1, d, t, pl, pr =>
    if 15 < pr - pl then
      if d = 0 then (aheapsortSeg v t pl pr, 0)
      else
        let pp := doPartition v t pl pr
        if pp.2 - pl < pr - pp.2 then
          let r1 := aqsGo v fuel (d - 1) pp.1 pl (pp.2 - 1)
          aqsGo v fuel r1.2 r1.1 (pp.2 + 1) pr
        else
          let r1 := aqsGo v fuel (d - 1) pp.1 (pp.2 + 1) pr
          aqsGo v fuel r1.2 r1.1 pl (pp.2 - 1)
    else
      (t.take pl ++ ainsertArg v ((t.drop pl).take (pr + 1 - pl)) ++ t.drop (pr + 1),
        d)

/-- Model of `numpy.argsort(kind="quicksort")` of an `int64` vector, as a
permutation of `range n`. -/
def npArgsortQ (v : List Int) : List Nat :=
  (aqsGo v (2 * v.length + 2) (2 * Nat.log2 (max v.length 1) + 1)
    (List.range v.length) 0 (v.length - 1)).1

/-- Model of `pandas.core.sorting.nargsort(items, kind="quicksort", ascending=False)`
for an integer column with no NaNs: reverse the values, argsort ascending,
map through the reversed index vector, reverse the indexer.  The result is
the display order of the 0-based insertion positions. -/
def nargsortDesc (items : List Int) : List Nat :=
  let n := items.length
  let revIdx := (List.range n).reverse
  ((npArgsortQ items.reverse).map (fun k => revIdx.getD k 0)).reverse

/-- The row order displayed by `result_df.sort_values("Priority Score",
ascending=False)` as a function of the appended rows' priority scores. -/
def sortedView (priorities : List Int) : List Nat := nargsortDesc priorities

example : sortedView [0, 5, 3] = [1, 2, 0] := by rfl
example : sortedView [5, 5] = [0, 1] := by rfl

/-! ### Stability of the insertion-argsort regime

For at most 16 elements `npArgsortQ` is numpy's stable insertion sort, and
the pandas double reversal turns a stable ascending argsort into a *stable*
descending indexer.  The lemmas below establish the stable-insert facts;
`[i, j] <+ l` ("`[i, j]` is a sublist of `l`") expresses "`i` appears
before `j`". -/

def KeySorted (v : List Int) (l : List Nat) : Prop :=
  l.Pairwise (fun a b => v.getD a 0 ≤ v.getD b 0)

theorem argInsert_eq_append (v : List Int) (i : Nat) :
    ∀ acc, ∃ p q, acc = p ++ q ∧ argInsert v i acc = p ++ i :: q := by
  intro acc
  induction acc with
  | nil => exact ⟨[], [], rfl, rfl⟩
  | cons j rest ih =>
    by_cases h : v.getD i 0 < v.getD j 0
    · exact ⟨[], j :: rest, rfl, by
        simp only [argInsert, if_pos h, List.nil_append]⟩
    · obtain ⟨p, q, h1, h2⟩ := ih
      exact ⟨j :: p, q, by simp [h1], by
        simp only [argInsert, if_neg h, h2, List.cons_append]⟩

theorem sublist_argInsert (v : List Int) (i : Nat) {s acc : List Nat}
    (h : List.Sublist s acc) : List.Sublist s (argInsert v i acc) := by
  obtain ⟨p, q, h1, h2⟩ := argInsert_eq_append v i acc
  rw [h2]; subst h1
  exact h.trans ((List.sublist_cons_self i q).append_left p)

theorem mem_argInsert_self (v : List Int) (i : Nat) (acc : List Nat) :
    i ∈ argInsert v i acc := by
  obtain ⟨p, q, _, h2⟩ := argInsert_eq_append v i acc
  rw [h2]; simp

theorem mem_argInsert_of_mem (v : List Int) (i : Nat) {a : Nat} {acc : List Nat}
    (h : a ∈ acc) : a ∈ argInsert v i acc := by
  obtain ⟨p, q, h1, h2⟩ := argInsert_eq_append v i acc
  rw [h2]; subst h1
  rcases List.mem_append.1 h with h | h
  · exact List.mem_append.2 (Or.inl h)
  · exact List.mem_append.2 (Or.inr (List.mem_cons_of_mem i h))

theorem mem_of_mem_argInsert (v : List Int) (i : Nat) {a : Nat} {acc : List Nat}
    (h : a ∈ argInsert v i acc) : a = i ∨ a ∈ acc := by
  obtain ⟨p, q, h1, h2⟩ := argInsert_eq_append v i acc
  rw [h2] at h; subst h1
  rcases List.mem_append.1 h with h | h
  · exact Or.inr (List.mem_append.2 (Or.inl h))
  · rcases List.mem_cons.1 h with h | h
    · exact Or.inl h
    · exact Or.inr (List.mem_append.2 (Or.inr h))

theorem keySorted_argInsert (v : List Int) (i : Nat) :
    ∀ acc, KeySorted v acc → KeySorted v (argInsert v i acc) := by
  intro acc
  induction acc with
  | nil => intro _; simp [argInsert, KeySorted]
  | cons j rest ih =>
    intro hs
    rcases List.pairwise_cons.1 hs with ⟨hj, hrest⟩
    by_cases h : v.getD i 0 < v.getD j 0
    · simp only [argInsert, if_pos h]
      refine List.pairwise_cons.2 ⟨?_, hs⟩
      intro b hb
      rcases List.mem_cons.1 hb with hb | hb
      · subst hb; exact le_of_lt h
      · exact le_of_lt (lt_of_lt_of_le h (hj b hb))
    · simp only [argInsert, if_neg h]
      refine List.pairwise_cons.2 ⟨?_, ih hrest⟩
      intro b hb
      rcases mem_of_mem_argInsert v i hb with hb | hb
      · subst hb; exact le_of_not_lt h
      · exact hj b hb

/-- The stable-insert property: inserting `i` after an equal-keyed `j`
already present in a sorted accumulator puts `i` after `j`. -/
theorem argInsert_pair_sublist (v : List Int) (i : Nat) :
    ∀ acc, KeySorted v acc → ∀ j ∈ acc, v.getD j 0 = v.getD i 0 →
      List.Sublist [j, i] (argInsert v i acc) := by
  intro acc
  induction acc with
  | nil => intro _ j hj; simp at hj
  | cons b rest ih =>
    intro hs j hj heq
    rcases List.pairwise_cons.1 hs with ⟨hb, hrest⟩
    rcases List.mem_cons.1 hj with hjb | hjr
    · subst hjb
      have h : ¬ v.getD i 0 < v.getD j 0 := by rw [heq]; exact lt_irrefl _
      simp only [argInsert, if_neg h]
      exact List.cons_sublist_cons.2
        (List.singleton_sublist.2 (mem_argInsert_self v i rest))
    · by_cases h : v.getD i 0 < v.getD b 0
      · exfalso
        have h1 : v.getD b 0 ≤ v.getD j 0 := hb j hjr
        rw [heq] at h1
        exact absurd (lt_of_le_of_lt h1 h) (lt_irrefl _)
      · simp only [argInsert, if_neg h]
        exact (ih hrest j hjr heq).cons b

theorem keySorted_fold (v : List Int) :
    ∀ (l : List Nat) (acc : List Nat), KeySorted v acc →
      KeySorted v (l.foldl (fun acc i => argInsert v i acc) acc) := by
  intro l
  induction l with
  | nil => intro acc h; exact h
  | cons x xs ih =>
    intro acc h
    exact ih (argInsert v x acc) (keySorted_argInsert v x acc h)

theorem mem_fold_of_mem (v : List Int) :
    ∀ (l : List Nat) (acc : List Nat) (a : Nat), a ∈ acc →
      a ∈ l.foldl (fun acc i => argInsert v i acc) acc := by
  intro l
  induction l with
  | nil => intro acc a h; exact h
  | cons x xs ih =>
    intro acc a h
    exact ih (argInsert v x acc) a (mem_argInsert_of_mem v x h)

theorem mem_fold_of_mem_list (v : List Int) :
    ∀ (l : List Nat) (acc : List Nat) (a : Nat), a ∈ l →
      a ∈ l.foldl (fun acc i => argInsert v i acc) acc := by
  intro l
  induction l with
  | nil => intro acc a h; simp at h
  | cons x xs ih =>
    intro acc a h
    rcases List.mem_cons.1 h with h | h
    · subst h
      exact mem_fold_of_mem v xs _ a (mem_argInsert_self v a acc)
    · exact ih (argInsert v x acc) a h

theorem sublist_fold (v : List Int) :
    ∀ (l : List Nat) (acc : List Nat) (s : List Nat), List.Sublist s acc →
      List.Sublist s (l.foldl (fun acc i => argInsert v i acc) acc) := by
  intro l
  induction l with
  | nil => intro acc s h; exact h
  | cons x xs ih =>
    intro acc s h
    exact ih (argInsert v x acc) s (sublist_argInsert v x h)

/-- Stability of the insertion argsort over `range n`: equal keys keep
their index order. -/
theorem ainsertArg_stable (v : List Int) (i j : Nat) (hij : i < j)
    (hjn : j < v.length) (heq : v.getD i 0 = v.getD j 0) :
    List.Sublist [i, j] (ainsertArg v (List.range v.length)) := by
  set n := v.length with hn
  have hsplit : List.range n = List.range' 0 j ++ (j :: List.range' (j + 1) (n - j - 1)) := by
    have h1 : List.range n = List.range' 0 n := List.range_eq_range' n
    have h2 : List.range' 0 j ++ List.range' j (n - j) = List.range' 0 n := by
      have h := List.range'_append 0 j (n - j) 1
      simpa [Nat.sub_add_cancel (le_of_lt hjn)] using h
    have h3 : List.range' j (n - j) = j :: List.range' (j + 1) (n - j - 1) := by
      have hnj : n - j = (n - j - 1) + 1 := by omega
      conv_lhs => rw [hnj]
      rw [List.range'_succ]
    rw [h1, ← h2, h3]
  unfold ainsertArg
  rw [hsplit, List.foldl_append]
  simp only [List.foldl_cons]
  set acc1 := (List.range' 0 j).foldl (fun acc i => argInsert v i acc) [] with hacc1
  have hsort : KeySorted v acc1 := keySorted_fold v _ [] (by simp [KeySorted])
  have hmem : i ∈ acc1 := by
    apply mem_fold_of_mem_list
    have : i ∈ List.range j := List.mem_range.2 hij
    simpa [List.range_eq_range'] using this
  have hpair : List.Sublist [i, j] (argInsert v j acc1) :=
    argInsert_pair_sublist v j acc1 hsort i hmem heq
  exact sublist_fold v _ _ _ hpair

theorem aqsGo_small (v : List Int) (f d : Nat) (t : List Nat) (pl pr : Nat)
    (h : ¬ 15 < pr - pl) :
    aqsGo v (f + 1) d t pl pr =
      (t.take pl ++ ainsertArg v ((t.drop pl).take (pr + 1 - pl)) ++ t.drop (pr + 1),
        d) := by
  simp only [aqsGo, if_neg h]

/-- On at most 16 elements numpy's introsort is exactly the stable insertion
argsort (the `pr - pl > SMALL_QUICKSORT` guard fails immediately). -/
theorem npArgsortQ_small (v : List Int) (h : v.length ≤ 16) :
    npArgsortQ v = ainsertArg v (List.range v.length) := by
  rcases Nat.eq_zero_or_pos v.length with hzero | hpos
  · have hv : v = [] := List.length_eq_zero.1 hzero
    subst hv; rfl
  · unfold npArgsortQ
    have hfuel : 2 * v.length + 2 = (2 * v.length + 1) + 1 := rfl
    rw [hfuel, aqsGo_small v _ _ _ _ _ (by omega)]
    have hpr : v.length - 1 + 1 = v.length := by omega
    simp only [List.take_zero, List.drop_zero, hpr, List.nil_append, Nat.sub_zero]
    rw [List.take_of_length_le (by simp), List.drop_eq_nil_of_le (by simp),
      List.append_nil]

theorem getD_reverse_sub {α : Type} (d : α) (l : List α) (k : Nat)
    (hk : k < l.length) :
    l.reverse.getD (l.length - 1 - k) d = l.getD k d := by
  have h1 : l.length - 1 - k < l.reverse.length := by
    rw [List.length_reverse]; omega
  rw [List.getD_eq_getElem l.reverse d h1, List.getD_eq_getElem l d hk]
  rw [List.getElem_reverse]
  congr 1
  omega

/-- Stability of the descending display order for at most 16 report rows:
two rows with equal priority keep their insertion order (the earlier row
index `i` appears before the later `j`). -/
theorem sortedView_stable_le16 (p : List Int) (h16 : p.length ≤ 16)
    (i j : Nat) (hij : i < j) (hj : j < p.length)
    (heq : p.getD i 0 = p.getD j 0) :
    List.Sublist [i, j] (sortedView p) := by
  set n := p.length with hn
  have hwlen : p.reverse.length = n := by rw [List.length_reverse]
  have hj' : n - 1 - j < n - 1 - i := by omega
  have hi'n : n - 1 - i < p.reverse.length := by omega
  have hkey : p.reverse.getD (n - 1 - j) 0 = p.reverse.getD (n - 1 - i) 0 := by
    rw [hn, getD_reverse_sub 0 p j hj,
      getD_reverse_sub 0 p i (lt_trans hij hj), heq]
  have hsub :
      List.Sublist [n - 1 - j, n - 1 - i]
        (ainsertArg p.reverse (List.range p.reverse.length)) :=
    ainsertArg_stable p.reverse (n - 1 - j) (n - 1 - i) hj' hi'n hkey
  rw [← npArgsortQ_small p.reverse (by rw [hwlen]; exact h16)] at hsub
  have hmap := hsub.map (fun k => ((List.range n).reverse.getD k 0))
  have hrevidx : ∀ a, a < n → ((List.range n).reverse.getD (n - 1 - a) 0) = a := by
    intro a ha
    have h1 : (List.range n).reverse.getD ((List.range n).length - 1 - a) 0 =
        (List.range n).getD a 0 :=
      getD_reverse_sub 0 (List.range n) a (by rw [List.length_range]; exact ha)
    rw [List.length_range] at h1
    rw [h1, List.getD_eq_getElem _ _ (by simpa using ha)]
    simp
  have hmapeq :
      [n - 1 - j, n - 1 - i].map (fun k => ((List.range n).reverse.getD k 0)) =
        [j, i] := by
    simp only [List.map_cons, List.map_nil]
    rw [hrevidx j hj, hrevidx i (lt_trans hij hj)]
  rw [hmapeq] at hmap
  have hrev := hmap.reverse
  have hrew : ([j, i]).reverse = [i, j] := rfl
  rw [hrew] at hrev
  simp only [sortedView, nargsortDesc]
  rw [← hn]
  exact hrev

/-! ## Claim theorems -/

/-- C1 (amended): for every raw model-response string the normalizer
terminates and yields either the successfully parsed JSON value unchanged
(the parsed value need not be an object — e.g. a bare JSON array or scalar
is returned as-is, with the four defaults applied only downstream and only
when the value is a dict) or, on parse failure, exactly the fixed fallback
`{is_non_compliant: false, category: "Unknown",
reason: "Model response could not be parsed", evidence_line_ids: []}`. -/
theorem C1_normalize_parse_or_fallback (raw : String) :
    (json_loads ⟨recoveredText raw⟩ = none ∧ normalize raw = parseFallback) ∨
    (∃ v, json_loads ⟨recoveredText raw⟩ = some v ∧ normalize raw = v) := by
  cases h : json_loads ⟨recoveredText raw⟩ with
  | none => exact Or.inl ⟨rfl, by unfold normalize; rw [h]⟩
  | some v => exact Or.inr ⟨v, rfl, by unfold normalize; rw [h]⟩

/-- C1 counterexample: the input `"[1, 2]"` contains no JSON object, yet the
normalizer does not produce the fallback — `json.loads` happily parses the
JSON *array* and the code returns it unchanged, so the result is neither "the
parsed object with defaults filled" nor the fixed fallback. -/
theorem C1_counterexample :
    normalize "[1, 2]" = Json.arr [Json.num 1 0, Json.num 2 0] ∧
    Json.isObj (normalize "[1, 2]") = false ∧
    normalize "[1, 2]" ≠ parseFallback := by
  refine ⟨rfl, rfl, fun h => ?_⟩
  rw [show normalize "[1, 2]" = Json.arr [Json.num 1 0, Json.num 2 0] from rfl] at h
  unfold parseFallback at h
  exact Json.noConfusion h

/-- C2: for every input text the sentence segmenter returns sentences whose
`line_id`s are exactly `1, 2, …, k` — strictly increasing, contiguous,
starting at 1; discarded empty/whitespace pieces leave no gaps (the only
discardable piece is the final one). -/
theorem C2_segment_line_ids (t : String) :
    (split_sentences t).map (fun s => s.line_id) =
      List.range' 1 (split_sentences t).length :=
  split_sentences_ids t

/-- C3 (amended): the priority-sorted view is a stable descending sort for
report collections of at most 16 rows (numpy's introsort runs its stable
insertion sort on segments of fewer than 17 elements, and the pandas
descending path reverses both before and after the ascending argsort, which
preserves insertion order among equal keys); `List.Sublist [i, j] …` states
that the earlier-appended row `i` appears before the later-appended row `j`.
Beyond 16 rows the default `kind="quicksort"` partitioning breaks ties, see
the counterexample. -/
theorem C3_sorted_view_stable_le16 (p : List Int) (h16 : p.length ≤ 16)
    (i j : Nat) (hij : i < j) (hj : j < p.length)
    (heq : p.getD i 0 = p.getD j 0) :
    List.Sublist [i, j] (sortedView p) :=
  sortedView_stable_le16 p h16 i j hij hj heq

/-- C3 witness: three rows with priorities 5, 5, 3 — the two tied rows keep
insertion order in the displayed view. -/
theorem C3_sorted_view_stable_le16_witness :
    List.Sublist [0, 1] (sortedView [5, 5, 3]) :=
  C3_sorted_view_stable_le16 [5, 5, 3] (by decide) 0 1 (by decide) (by decide)
    (by decide)

set_option maxHeartbeats 4000000 in
/-- C3 counterexample: after appending 17 rows of equal priority 5, the
displayed order is `[0, 9, 15, 14, …]` — row 9 (appended later) is shown
before row 1 (appended earlier), so the sorted view is not stable. -/
theorem C3_counterexample :
    1 < 9 ∧ 9 < (List.replicate 17 (5 : Int)).length ∧
    (List.replicate 17 (5 : Int)).getD 1 0 = (List.replicate 17 (5 : Int)).getD 9 0 ∧
    ¬ List.Sublist [1, 9] (sortedView (List.replicate 17 (5 : Int))) := by
  refine ⟨by decide, by decide, by rfl, by decide⟩

/-- C4 (amended): the fence-stripping step removes a single leading
code-fence marker matched *case-sensitively* — lowercase ```` ```json ````
(or bare ```` ``` ````) plus its following whitespace run is removed, while
an uppercase ```` ```JSON ```` loses only its three backticks, `JSON`
remaining in place — together with a single trailing ```` ``` ```` marker at
the very end; a string with no fence at its start and no fence at its end is
left untouched. -/
theorem C4_fence_strip_case_sensitive (l : List Char) :
    (stripFences (fence3 ++ ('j' :: 's' :: 'o' :: 'n' :: l)) =
       dropTrailingFence (l.dropWhile pyIsSpace)) ∧
    (stripFences (fence3 ++ ('J' :: 'S' :: 'O' :: 'N' :: l)) =
       dropTrailingFence ('J' :: 'S' :: 'O' :: 'N' :: l)) ∧
    (l.take 3 ≠ fence3 → l.reverse.take 3 ≠ fence3 →
      l.reverse.take 4 ≠ '\n' :: fence3 → stripFences l = l) := by
  refine ⟨rfl, rfl, fun h1 h2 h3 => ?_⟩
  have hlead : dropLeadingFence l = l := by
    unfold dropLeadingFence; rw [if_neg h1]
  have htrail : dropTrailingFence l = l := by
    unfold dropTrailingFence
    dsimp only
    rw [if_neg h2, if_neg h3]
  unfold stripFences
  rw [hlead, htrail]

/-- C4 witness: a lowercase-fenced payload is stripped; a string whose only
fence is mid-string is untouched. -/
theorem C4_fence_strip_case_sensitive_witness :
    stripFences (fence3 ++ ('j' :: 's' :: 'o' :: 'n' :: "x".data)) =
      dropTrailingFence ("x".data.dropWhile pyIsSpace) ∧
    stripFences "mid ``` fence".data = "mid ``` fence".data :=
  ⟨(C4_fence_strip_case_sensitive "x".data).1,
    (C4_fence_strip_case_sensitive "mid ``` fence".data).2.2 (by decide) (by decide)
      (by decide)⟩

/-- C4 counterexample: the claim says the leading marker is matched
case-insensitively, i.e. ```` ```JSON ```` would be removed entirely (the
case-insensitive reading `stripFencesClaimCI` yields `""`), but the code has
no `re.IGNORECASE` flag and leaves `JSON` behind. -/
theorem C4_counterexample :
    stripFences "```JSON".data = "JSON".data ∧
    stripFencesClaimCI "```JSON".data = [] ∧
    stripFences "```JSON".data ≠ stripFencesClaimCI "```JSON".data := by
  refine ⟨by decide, by decide, by decide⟩

/-- C5: on analyses with boolean `is_non_compliant` and string `category`,
the priority is 0 whenever `is_non_compliant` is false regardless of the
category; when it is true the priority is the risk-weight lookup —
Secrecy 4, Market Manipulation/Misconduct 5, Market Bribery 5,
Change in Communication 3, Complaints 2, Employee Ethics 3 — and 1 for any
category string not in the table. -/
theorem C5_priority_score (cat : String) :
    priority_of [("is_non_compliant", Json.bool false), ("category", Json.str cat)] = 0 ∧
    priority_of [("is_non_compliant", Json.bool true), ("category", Json.str cat)] =
      calculate_priority (Json.str cat) ∧
    calculate_priority (Json.str "Secrecy") = 4 ∧
    calculate_priority (Json.str "Market Manipulation/Misconduct") = 5 ∧
    calculate_priority (Json.str "Market Bribery") = 5 ∧
    calculate_priority (Json.str "Change in Communication") = 3 ∧
    calculate_priority (Json.str "Complaints") = 2 ∧
    calculate_priority (Json.str "Employee Ethics") = 3 ∧
    (cat ∉ RISK_WEIGHTS.map Prod.fst → calculate_priority (Json.str cat) = 1) := by
  refine ⟨rfl, rfl, rfl, rfl, rfl, rfl, rfl, rfl, fun hno => ?_⟩
  have hfind : RISK_WEIGHTS.find? (fun kv => kv.1 == cat) = none := by
    apply List.find?_eq_none.2
    intro kv hkv hbeq
    exact hno (List.mem_map.2 ⟨kv, hkv, eq_of_beq hbeq⟩)
  rw [show calculate_priority (Json.str cat) =
      (match RISK_WEIGHTS.find? (fun kv => kv.1 == cat) with
       | some kv => kv.2
       | none => 1) from rfl, hfind]

/-- C5 witness at the spec's own examples: a compliant Market Bribery email
scores 0; a non-compliant hallucinated category scores 1. -/
theorem C5_priority_score_witness :
    priority_of
      [("is_non_compliant", Json.bool false), ("category", Json.str "Market Bribery")] = 0 ∧
    priority_of
      [("is_non_compliant", Json.bool true), ("category", Json.str "Nonexistent")] = 1 := by
  refine ⟨(C5_priority_score "Market Bribery").1, ?_⟩
  have h := (C5_priority_score "Nonexistent").2.2.2.2.2.2.2.2 (by decide)
  rw [(C5_priority_score "Nonexistent").2.1, h]

/-- C6 (amended): every sentence produced by the segmenter has a text
containing at least one non-whitespace character (its `strip()` is
non-empty); the text is stored *untrimmed*, so it may retain leading or
trailing whitespace of the original piece — see the counterexample. -/
theorem C6_sentence_text_nonblank (t : String) (s : Sentence)
    (hs : s ∈ split_sentences t) :
    ∃ c ∈ s.text.data, pyIsSpace c = false :=
  split_sentences_text_has_nonspace t s hs

theorem C6_sentence_text_nonblank_witness :
    ∃ c ∈ (Sentence.mk 1 "Hi").text.data, pyIsSpace c = false :=
  C6_sentence_text_nonblank "Hi" (Sentence.mk 1 "Hi") (by decide)

/-- C6 counterexample: segmenting `" Hi"` produces the sentence text
`" Hi"` — non-empty, but carrying leading whitespace, so the produced text
is not a trimmed string as claimed (the filter tests `s.strip()` but stores
`s` unmodified). -/
theorem C6_counterexample :
    (⟨1, " Hi"⟩ : Sentence) ∈ split_sentences " Hi" ∧
    pyStrip (Sentence.mk 1 " Hi").text ≠ (Sentence.mk 1 " Hi").text := by
  exact ⟨by decide, by decide⟩

/-- C7: evidence resolution returns exactly the texts of sentences whose
`line_id` is in the id set, in original segmentation order (the output is a
sublist of the sentence texts, and depends only on the membership of the id
collection, not on the order ids were listed); ids with no matching sentence
are dropped silently, leaving the output unchanged. -/
theorem C7_evidence_resolution (ids : List Int) (sents : List Sentence) :
    List.Sublist (evidence_texts ids sents) (sents.map (fun s => s.text)) ∧
    (∀ ids2 : List Int, (∀ a : Int, a ∈ ids ↔ a ∈ ids2) →
      evidence_texts ids sents = evidence_texts ids2 sents) ∧
    (∀ a : Int, (∀ s ∈ sents, (s.line_id : Int) ≠ a) →
      evidence_texts (a :: ids) sents = evidence_texts ids sents) := by
  refine ⟨(List.filter_sublist sents).map _, ?_, ?_⟩
  · intro ids2 hiff
    unfold evidence_texts
    congr 1
    apply List.filter_congr
    intro s _
    by_cases h : (s.line_id : Int) ∈ ids
    · simp [h, (hiff _).1 h]
    · have h2 : (s.line_id : Int) ∉ ids2 := fun hx => h ((hiff _).2 hx)
      simp [h, h2]
  · intro a ha
    unfold evidence_texts
    congr 1
    apply List.filter_congr
    intro s hs
    simp [ha s hs]

/-- C7 witness: ids `{2, 5}` against three sentences return only sentence
2's text; listing the ids in the other order changes nothing; the
unmatched id 9 is dropped silently. -/
theorem C7_evidence_resolution_witness :
    List.Sublist (evidence_texts [2, 5] [⟨1, "A."⟩, ⟨2, "B."⟩, ⟨3, "C."⟩])
      ([(⟨1, "A."⟩ : Sentence), ⟨2, "B."⟩, ⟨3, "C."⟩].map (fun s => s.text)) ∧
    evidence_texts [2, 5] [⟨1, "A."⟩, ⟨2, "B."⟩, ⟨3, "C."⟩] =
      evidence_texts [5, 2] [⟨1, "A."⟩, ⟨2, "B."⟩, ⟨3, "C."⟩] ∧
    evidence_texts (9 :: [2, 5]) [⟨1, "A."⟩, ⟨2, "B."⟩, ⟨3, "C."⟩] =
      evidence_texts [2, 5] [⟨1, "A."⟩, ⟨2, "B."⟩, ⟨3, "C."⟩] := by
  refine ⟨(C7_evidence_resolution [2, 5] _).1,
    (C7_evidence_resolution [2, 5] _).2.1 [5, 2] ?_,
    (C7_evidence_resolution [2, 5] _).2.2 9 (by decide)⟩
  intro a
  constructor <;> intro h <;> simp [List.mem_cons] at h ⊢ <;> tauto

/-- C8: the prompt builder is a pure deterministic function — two
invocations with identical subject, body and sentence sequence produce the
identical output string. -/
theorem C8_prompt_deterministic (s1 s2 b1 b2 : String) (ss1 ss2 : List Sentence)
    (hs : s1 = s2) (hb : b1 = b2) (hss : ss1 = ss2) :
    build_prompt s1 b1 ss1 = build_prompt s2 b2 ss2 := by
  rw [hs, hb, hss]

theorem C8_prompt_deterministic_witness :
    build_prompt "Greeting" "Hello. Bye!" (split_sentences "Hello. Bye!") =
      build_prompt "Greeting" "Hello. Bye!" (split_sentences "Hello. Bye!") :=
  C8_prompt_deterministic _ _ _ _ _ _ rfl rfl rfl

/-- C9: the main-loop priority guard is Python truthiness, not boolean
equality: any truthy `is_non_compliant` value (e.g. the string `"false"` or
the integer 1) selects the risk-weight lookup, any falsy value (`False`, 0,
`""`, `None`) yields 0. -/
theorem C9_priority_truthiness (v cat : Json) :
    (pyTruthy v = true →
      priority_of [("is_non_compliant", v), ("category", cat)] =
        calculate_priority cat) ∧
    (pyTruthy v = false →
      priority_of [("is_non_compliant", v), ("category", cat)] = 0) ∧
    pyTruthy (Json.str "false") = true ∧
    pyTruthy (Json.num 1 0) = true ∧
    pyTruthy (Json.bool false) = false ∧
    pyTruthy (Json.num 0 0) = false ∧
    pyTruthy (Json.str "") = false ∧
    pyTruthy Json.null = false := by
  have hred : priority_of [("is_non_compliant", v), ("category", cat)] =
      if pyTruthy v then calculate_priority cat else 0 := rfl
  refine ⟨fun h => ?_, fun h => ?_, rfl, rfl, rfl, rfl, rfl, rfl⟩
  · rw [hred, h]; simp
  · rw [hred, h]; simp

/-- C9 witness: the truthy string `"false"` triggers the weight lookup; the
boolean `False` yields 0. -/
theorem C9_priority_truthiness_witness :
    priority_of
      [("is_non_compliant", Json.str "false"), ("category", Json.str "Secrecy")] =
      calculate_priority (Json.str "Secrecy") ∧
    priority_of
      [("is_non_compliant", Json.bool false), ("category", Json.str "Secrecy")] = 0 :=
  ⟨(C9_priority_truthiness (Json.str "false") (Json.str "Secrecy")).1 rfl,
    (C9_priority_truthiness (Json.bool false) (Json.str "Secrecy")).2.1 rfl⟩

/-- C10: evidence resolution is invariant under duplication of the id list
(the ids are converted to a set before matching), and each sentence
contributes its text at most once — the multiplicity of any text in the
output never exceeds its multiplicity among the sentence texts. -/
theorem C10_evidence_dedup (L : List Int) (S : List Sentence) :
    evidence_texts (L ++ L) S = evidence_texts L S ∧
    ∀ t : String,
      (evidence_texts L S).count t ≤ (S.map (fun s => s.text)).count t := by
  constructor
  · unfold evidence_texts
    congr 1
    apply List.filter_congr
    intro s _
    by_cases h : (s.line_id : Int) ∈ L <;> simp [h]
  · intro t
    exact ((List.filter_sublist S).map _).count_le t

end Surveillance
